import Mathlib

/-
  Verification of the DeepSplines learnable spline-activation engine.

  Numeric tensors are embedded over ℚ; per-channel tensors become functions
  from a channel index, and elementwise tensor operations become pointwise
  functions.  Code present in the repository (deepBspline_explicit_linear.py,
  manager.py) is translated directly; the spline-evaluator base class and the
  parameter-registry base model are not part of the repository snapshot and
  are modelled from the specification, as marked on each such definition.
-/

namespace DeepSplines

/-! ## Knot grid (modelled from the spec, §4.1: deepBspline_base.py is not in
    the repository snapshot) -/

/-- Modelled from the spec: knot locations are `{-R, -R+Δ, ..., R}`, the
i-th knot of a grid with half-range `R` and step `step` is `-R + i*step`. -/
def knot (R step : ℚ) (i : ℕ) : ℚ := -R + i * step

/-- Modelled from the spec: the knot-grid size is `round(2R/Δ) + 1`. -/
def gridSize (R step : ℚ) : ℕ := (round (2 * R / step)).toNat + 1

/-! ## Spline evaluator forward pass (modelled from the spec, §4.2:
    deepBspline_base.py is not in the repository snapshot) -/

/-- Modelled from the spec: the enclosing knot interval is located via
floor-division by the step and clamped to the grid boundary, so inputs left
of the grid use segment 0 and inputs right of the grid use segment
`size - 2`. -/
def intervalIndex (R step : ℚ) (size : ℕ) (x : ℚ) : ℕ :=
  min (size - 2) (Int.toNat ⌊(x + R) / step⌋)

/-- Modelled from the spec: forward evaluation is linear interpolation
between the two coefficients enclosing the input; the clamped interval
index makes it linear extrapolation of the boundary segment outside the
grid range. `c i` is the coefficient anchored at the i-th knot. -/
def splineForward (R step : ℚ) (size : ℕ) (c : ℕ → ℚ) (x : ℚ) : ℚ :=
  c (intervalIndex R step size x)
    + (x - knot R step (intervalIndex R step size x)) / step
      * (c (intervalIndex R step size x + 1) - c (intervalIndex R step size x))

/-- The coefficient vector `[0, 0, 0, 1, 2]` of the spec's worked scenario. -/
def scenarioCoeffs : ℕ → ℚ
  | 3 => 1
  | 4 => 2
  | _ => 0

/-! ### Interval location lemmas -/

theorem intervalIndex_of_inside (R step : ℚ) (size : ℕ) (i : ℕ) (t : ℚ)
    (hstep : 0 < step) (hi : i ≤ size - 2) (ht0 : 0 ≤ t) (ht1 : t < 1) :
    intervalIndex R step size (knot R step i + t * step) = i := by
  have hx : (knot R step i + t * step + R) / step = i + t := by
    unfold knot
    field_simp
    ring
  have hfloor : ⌊(knot R step i + t * step + R) / step⌋ = i := by
    rw [hx, Int.floor_nat_add]
    have ht : ⌊t⌋ = 0 := Int.floor_eq_zero_iff.mpr ⟨ht0, ht1⟩
    omega
  unfold intervalIndex
  rw [hfloor]
  omega

theorem splineForward_inside (R step : ℚ) (size : ℕ) (c : ℕ → ℚ) (i : ℕ) (t : ℚ)
    (hstep : 0 < step) (hi : i ≤ size - 2) (ht0 : 0 ≤ t) (ht1 : t < 1) :
    splineForward R step size c (knot R step i + t * step)
      = c i + t * (c (i + 1) - c i) := by
  unfold splineForward
  rw [intervalIndex_of_inside R step size i t hstep hi ht0 ht1]
  have hfrac : (knot R step i + t * step - knot R step i) / step = t := by
    field_simp
  rw [hfrac]

theorem intervalIndex_of_ge (R step : ℚ) (size : ℕ) (x : ℚ)
    (hstep : 0 < step) (hsize : 2 ≤ size) (hgrid : 2 * R = ((size - 1 : ℕ) : ℚ) * step)
    (hx : R ≤ x) :
    intervalIndex R step size x = size - 2 := by
  have hge : ((size - 1 : ℕ) : ℚ) ≤ (x + R) / step := by
    rw [le_div_iff₀ hstep]
    have : ((size - 1 : ℕ) : ℚ) * step = 2 * R := hgrid.symm
    rw [this]
    linarith
  have hfloor : ((size - 1 : ℕ) : ℤ) ≤ ⌊(x + R) / step⌋ := by
    exact_mod_cast Int.le_floor.mpr (by exact_mod_cast hge)
  unfold intervalIndex
  omega

theorem intervalIndex_of_le (R step : ℚ) (size : ℕ) (x : ℚ)
    (hstep : 0 < step) (hx : x ≤ -R) :
    intervalIndex R step size x = 0 := by
  have hle : (x + R) / step ≤ 0 := by
    apply div_nonpos_of_nonpos_of_nonneg <;> linarith
  have hfloor : ⌊(x + R) / step⌋ ≤ 0 := by
    exact Int.floor_nonpos hle
  unfold intervalIndex
  omega

/-- Linear extrapolation above the grid: for `x ≥ R` the output follows the
last segment's slope from the last coefficient. -/
theorem splineForward_extrapolate_right (R step : ℚ) (size : ℕ) (c : ℕ → ℚ) (x : ℚ)
    (hstep : 0 < step) (hsize : 2 ≤ size) (hgrid : 2 * R = ((size - 1 : ℕ) : ℚ) * step)
    (hx : R ≤ x) :
    splineForward R step size c x
      = c (size - 1) + (x - R) / step * (c (size - 1) - c (size - 2)) := by
  unfold splineForward
  rw [intervalIndex_of_ge R step size x hstep hsize hgrid hx]
  have hidx : size - 2 + 1 = size - 1 := by omega
  have h2 : ((size - 2 : ℕ) : ℚ) = ((size - 1 : ℕ) : ℚ) - 1 := by
    have h : size - 1 = (size - 2) + 1 := by omega
    rw [h]
    push_cast
    ring
  have hknot : knot R step (size - 2) = R - step := by
    unfold knot
    rw [h2]
    have hR : ((size - 1 : ℕ) : ℚ) * step = 2 * R := hgrid.symm
    linarith [hR]
  rw [hidx, hknot]
  have hfrac : (x - (R - step)) / step = (x - R) / step + 1 := by
    field_simp
    ring
  rw [hfrac]
  ring

/-- Linear extrapolation below the grid: for `x ≤ -R` the output follows the
first segment's slope from the first coefficient. -/
theorem splineForward_extrapolate_left (R step : ℚ) (size : ℕ) (c : ℕ → ℚ) (x : ℚ)
    (hstep : 0 < step) (hx : x ≤ -R) :
    splineForward R step size c x
      = c 0 + (x + R) / step * (c 1 - c 0) := by
  unfold splineForward
  rw [intervalIndex_of_le R step size x hstep hx]
  unfold knot
  norm_num

/-- Evaluation at any knot returns exactly that knot's coefficient. -/
theorem splineForward_at_knot (R step : ℚ) (size : ℕ) (c : ℕ → ℚ) (j : ℕ)
    (hstep : 0 < step) (hsize : 2 ≤ size) (hgrid : 2 * R = ((size - 1 : ℕ) : ℚ) * step)
    (hj : j < size) :
    splineForward R step size c (knot R step j) = c j := by
  rcases Nat.lt_or_ge j (size - 1) with hlt | hge
  · have hj2 : j ≤ size - 2 := by omega
    have := splineForward_inside R step size c j 0 hstep hj2 le_rfl one_pos
    simpa using this
  · have hj1 : j = size - 1 := by omega
    subst hj1
    have hknot : knot R step (size - 1) = R := by
      unfold knot
      have : ((size - 1 : ℕ) : ℚ) * step = 2 * R := hgrid.symm
      linarith
    rw [hknot]
    rw [splineForward_extrapolate_right R step size c R hstep hsize hgrid le_rfl]
    simp

/-! ## Claim C1 and C7 theorems -/

/-- C7: for all valid configuration values R > 0 and Δ > 0 with Δ evenly
dividing 2R, the constructed knot grid has size round(2R/Δ) + 1 and its
locations are uniformly spaced with step Δ, symmetric around 0, running
from -R to R. -/
theorem C7_knot_grid (R step : ℚ) (m : ℕ) (hR : 0 < R) (hstep : 0 < step)
    (hdiv : 2 * R = m * step) :
    gridSize R step = m + 1
    ∧ knot R step 0 = -R
    ∧ knot R step (gridSize R step - 1) = R
    ∧ (∀ i, knot R step (i + 1) - knot R step i = step)
    ∧ (∀ i, i < gridSize R step →
        knot R step i + knot R step (gridSize R step - 1 - i) = 0) := by
  have hq : 2 * R / step = (m : ℚ) := by
    rw [hdiv]
    field_simp
  have hgs : gridSize R step = m + 1 := by
    unfold gridSize
    rw [hq]
    rw [show ((m : ℚ)) = ((m : ℤ) : ℚ) by push_cast; ring, round_intCast]
    simp
  refine ⟨hgs, by unfold knot; simp, ?_, ?_, ?_⟩
  · rw [hgs]
    unfold knot
    simp only [Nat.add_sub_cancel]
    linarith [hdiv]
  · intro i
    unfold knot
    push_cast
    ring
  · intro i hi
    rw [hgs] at hi ⊢
    unfold knot
    have hsub : ((m + 1 - 1 - i : ℕ) : ℚ) = (m : ℚ) - (i : ℚ) := by
      have h : m + 1 - 1 - i = m - i := by omega
      rw [h, Nat.cast_sub (by omega)]
    rw [hsub]
    have : (m : ℚ) * step = 2 * R := hdiv.symm
    linarith [this, mul_comm (step) ((i : ℚ))]

/-- C7 witness: at R = 1, Δ = 1/2 the grid has round(2/Δ) + 1 = 5 knots. -/
theorem C7_knot_grid_witness : gridSize 1 (1/2) = 4 + 1 :=
  (C7_knot_grid 1 (1/2) 4 (by norm_num) (by norm_num) (by norm_num)).1

/-- C1: forward evaluation linearly interpolates between the two enclosing
coefficients inside the knot range, returns exactly the knot's coefficient
at a knot location, linearly extrapolates with the boundary segment's slope
outside the range, and on the grid R = 1, Δ = 1/2 with coefficients
[0,0,0,1,2] it gives 1/2 at x = 1/4 and 3 at x = 3/2. -/
theorem C1_spline_forward_evaluation :
    (∀ (R step : ℚ) (size : ℕ) (c : ℕ → ℚ) (i : ℕ) (t : ℚ),
        0 < step → i ≤ size - 2 → 0 ≤ t → t < 1 →
        splineForward R step size c (knot R step i + t * step)
          = c i + t * (c (i + 1) - c i))
    ∧ (∀ (R step : ℚ) (size : ℕ) (c : ℕ → ℚ) (j : ℕ),
        0 < step → 2 ≤ size → 2 * R = ((size - 1 : ℕ) : ℚ) * step → j < size →
        splineForward R step size c (knot R step j) = c j)
    ∧ (∀ (R step : ℚ) (size : ℕ) (c : ℕ → ℚ) (x : ℚ),
        0 < step → 2 ≤ size → 2 * R = ((size - 1 : ℕ) : ℚ) * step → R ≤ x →
        splineForward R step size c x
          = c (size - 1) + (x - R) / step * (c (size - 1) - c (size - 2)))
    ∧ (∀ (R step : ℚ) (size : ℕ) (c : ℕ → ℚ) (x : ℚ),
        0 < step → x ≤ -R →
        splineForward R step size c x = c 0 + (x + R) / step * (c 1 - c 0))
    ∧ splineForward 1 (1/2) 5 scenarioCoeffs (1/4) = 1/2
    ∧ splineForward 1 (1/2) 5 scenarioCoeffs (3/2) = 3 := by
  refine ⟨fun R step size c i t h1 h2 h3 h4 =>
      splineForward_inside R step size c i t h1 h2 h3 h4,
    fun R step size c j h1 h2 h3 h4 =>
      splineForward_at_knot R step size c j h1 h2 h3 h4,
    fun R step size c x h1 h2 h3 h4 =>
      splineForward_extrapolate_right R step size c x h1 h2 h3 h4,
    fun R step size c x h1 h2 =>
      splineForward_extrapolate_left R step size c x h1 h2, ?_, ?_⟩
  · have h := splineForward_inside 1 (1/2) 5 scenarioCoeffs 2 (1/2)
      (by norm_num) (by norm_num) (by norm_num) (by norm_num)
    have hk : knot 1 (1/2) 2 + (1/2) * (1/2) = (1/4 : ℚ) := by
      unfold knot
      norm_num
    rw [hk] at h
    rw [h]
    simp [scenarioCoeffs]
  · have h := splineForward_extrapolate_right 1 (1/2) 5 scenarioCoeffs (3/2)
      (by norm_num) (by norm_num) (by norm_num) (by norm_num)
    rw [h]
    simp [scenarioCoeffs]
    norm_num

/-- C1 witness: midpoint interpolation on segment 2 of the scenario grid. -/
theorem C1_spline_forward_evaluation_witness :
    splineForward 1 (1/2) 5 scenarioCoeffs (knot 1 (1/2) 2 + (1/2) * (1/2))
      = scenarioCoeffs 2 + (1/2) * (scenarioCoeffs 3 - scenarioCoeffs 2) :=
  C1_spline_forward_evaluation.1 1 (1/2) 5 scenarioCoeffs 2 (1/2)
    (by norm_num) (by norm_num) (by norm_num) (by norm_num)

/-! ## DeepBSplineExplicitLinear construction
    (deepBspline_explicit_linear.py) -/

/-- PyTorch F.leaky_relu: identity for nonnegative inputs, `slope * x`
for negative inputs. -/
def leakyReLU (slope x : ℚ) : ℚ := if 0 ≤ x then x else slope * x

/-- PyTorch F.relu: `max(x, 0)`. -/
def reluFn (x : ℚ) : ℚ := max x 0

/-- PyTorch F.softshrink with parameter `lambd`: `x - lambd` above `lambd`,
`x + lambd` below `-lambd`, zero in between. -/
def softshrink (lambd x : ℚ) : ℚ :=
  if lambd < x then x - lambd else if x < -lambd then x + lambd else 0

/-- State produced by DeepBSplineExplicitLinear.__init__: the spline
coefficient at knot location `g` of channel `c` (coefficients are an
elementwise function of the grid tensor), the per-channel linear weight b1
and bias b0, and the learn_bias flag. -/
structure ExplicitLinearState where
  coefficients : ℕ → ℚ → ℚ
  spline_weight : ℕ → ℚ
  spline_bias : ℕ → ℚ
  learn_bias : Bool

/-- DeepBSplineExplicitLinear.__init__ (source lines 22-68): dispatch on
the initialization name; an unsupported name raises ValueError, embedded
as Except.error. -/
def constructExplicitLinear (bias : Bool) (init : String) (num_activations : ℕ) :
    Except String ExplicitLinearState :=
  if init = "leaky_relu" then
    Except.ok
      { coefficients := fun _ g => leakyReLU (1/100) g - (1/100) * g
        spline_weight := fun _ => 1/100
        spline_bias := fun _ => 0
        learn_bias := bias }
  else if init = "relu" then
    Except.ok
      { coefficients := fun _ g => reluFn g
        spline_weight := fun _ => 0
        spline_bias := fun _ => 0
        learn_bias := bias }
  else if init = "even_odd" then
    Except.ok
      { coefficients := fun c g =>
          if c < num_activations / 2 then |g| - (-1) * g
          else softshrink (1/2) g - (1 * g + 1/2)
        spline_weight := fun c => if c < num_activations / 2 then -1 else 1
        spline_bias := fun c => if c < num_activations / 2 then 0 else 1/2
        learn_bias := bias }
  else Except.error "init should be in [leaky_relu, relu, even_odd]."

/-- The reference function each initialization is meant to reproduce:
leaky-ReLU with negative slope 0.01, ReLU, or (for even_odd) absolute
value on the first half of the channels and soft-threshold with lambda 0.5
on the second half. -/
def referenceFunction (init : String) (num_activations : ℕ) (c : ℕ) (x : ℚ) : ℚ :=
  if init = "leaky_relu" then leakyReLU (1/100) x
  else if init = "relu" then reluFn x
  else if c < num_activations / 2 then |x| else softshrink (1/2) x

/-- C2: for every supported initialization name, at every knot location g
of every channel, the initial spline coefficient plus the initial linear
term (spline_bias + spline_weight * g) equals the reference function's
value at g. -/
theorem C2_initialization_matches_reference (bias : Bool) (init : String)
    (n : ℕ) (act : ExplicitLinearState)
    (hok : constructExplicitLinear bias init n = Except.ok act)
    (c : ℕ) (hc : c < n) (g : ℚ) :
    act.coefficients c g + (act.spline_bias c + act.spline_weight c * g)
      = referenceFunction init n c g := by
  unfold constructExplicitLinear at hok
  unfold referenceFunction
  by_cases h1 : init = "leaky_relu"
  · rw [if_pos h1] at hok
    rw [if_pos h1]
    cases hok
    simp only []
    ring
  · rw [if_neg h1] at hok
    rw [if_neg h1]
    by_cases h2 : init = "relu"
    · rw [if_pos h2] at hok
      rw [if_pos h2]
      cases hok
      simp only []
      ring
    · rw [if_neg h2] at hok
      rw [if_neg h2]
      by_cases h3 : init = "even_odd"
      · rw [if_pos h3] at hok
        cases hok
        simp only []
        by_cases hhalf : c < n / 2
        · rw [if_pos hhalf, if_pos hhalf, if_pos hhalf, if_pos hhalf]
          ring
        · rw [if_neg hhalf, if_neg hhalf, if_neg hhalf, if_neg hhalf]
          ring
      · rw [if_neg h3] at hok
        exact absurd hok (by simp)

/-- C2 witness: the relu initialization at channel 0, knot location 3. -/
theorem C2_initialization_matches_reference_witness :
    ({ coefficients := fun _ g => reluFn g
       spline_weight := fun _ => 0
       spline_bias := fun _ => 0
       learn_bias := true } : ExplicitLinearState).coefficients 0 3
      + (({ coefficients := fun _ g => reluFn g
            spline_weight := fun _ => 0
            spline_bias := fun _ => 0
            learn_bias := true } : ExplicitLinearState).spline_bias 0
        + ({ coefficients := fun _ g => reluFn g
             spline_weight := fun _ => 0
             spline_bias := fun _ => 0
             learn_bias := true } : ExplicitLinearState).spline_weight 0 * 3)
      = referenceFunction "relu" 1 0 3 :=
  C2_initialization_matches_reference true "relu" 1 _ rfl 0 (by norm_num) 3

/-- C8: constructing with an initialization name outside the three
supported ones yields the ValueError message and never an activation
object. -/
theorem C8_invalid_init_rejected (bias : Bool) (init : String) (n : ℕ)
    (h1 : init ≠ "leaky_relu") (h2 : init ≠ "relu") (h3 : init ≠ "even_odd") :
    constructExplicitLinear bias init n
      = Except.error "init should be in [leaky_relu, relu, even_odd]."
    ∧ ∀ act, constructExplicitLinear bias init n ≠ Except.ok act := by
  unfold constructExplicitLinear
  rw [if_neg h1, if_neg h2, if_neg h3]
  exact ⟨rfl, fun act h => by simp at h⟩

/-- C8 witness: the name "foo" is rejected. -/
theorem C8_invalid_init_rejected_witness :
    constructExplicitLinear true "foo" 4
      = Except.error "init should be in [leaky_relu, relu, even_odd]."
    ∧ ∀ act, constructExplicitLinear true "foo" 4 ≠ Except.ok act :=
  C8_invalid_init_rejected true "foo" 4 (by decide) (by decide) (by decide)

/-! ## Parameter registration of DeepBSplineExplicitLinear
    (source lines 62-68 and 78-82) -/

/-- Learnable parameter names registered by the constructor: the
coefficient vector and the spline weight always become nn.Parameter; the
spline bias does only when `learn_bias` is true. -/
def registered_parameters (learn_bias : Bool) : List String :=
  ["coefficients_vect", "spline_weight"]
    ++ (if learn_bias then ["spline_bias"] else [])

/-- DeepBSplineExplicitLinear.parameter_names (a static method): yields the
three fixed names, ignoring all arguments. -/
def parameter_names {α : Type} (kwargs : α) : List String :=
  ["coefficients_vect", "spline_weight", "spline_bias"]

/-- The module's three tensors, with the learn_bias flag recording whether
spline_bias was registered as a learnable parameter. -/
structure SplineParams where
  coefficients_vect : ℕ → ℚ
  spline_weight : ℕ → ℚ
  spline_bias : ℕ → ℚ
  learn_bias : Bool

/-- Modelled from the spec: an optimizer update (basemodel.py and the
optimizer are outside the repository snapshot) modifies exactly the
tensors registered as learnable parameters; `upd name` is the optimizer's
update of the parameter called `name`. -/
def module_opt_step (upd : String → (ℕ → ℚ) → (ℕ → ℚ))
    (m : SplineParams) : SplineParams :=
  { m with
    coefficients_vect :=
      if "coefficients_vect" ∈ registered_parameters m.learn_bias
      then upd "coefficients_vect" m.coefficients_vect
      else m.coefficients_vect
    spline_weight :=
      if "spline_weight" ∈ registered_parameters m.learn_bias
      then upd "spline_weight" m.spline_weight
      else m.spline_weight
    spline_bias :=
      if "spline_bias" ∈ registered_parameters m.learn_bias
      then upd "spline_bias" m.spline_bias
      else m.spline_bias }

theorem module_opt_step_learn_bias (upd : String → (ℕ → ℚ) → (ℕ → ℚ))
    (m : SplineParams) : (module_opt_step upd m).learn_bias = m.learn_bias :=
  rfl

theorem module_opt_step_bias_frozen (upd : String → (ℕ → ℚ) → (ℕ → ℚ))
    (m : SplineParams) (h : m.learn_bias = false) :
    (module_opt_step upd m).spline_bias = m.spline_bias := by
  unfold module_opt_step
  rw [h]
  simp [registered_parameters]

theorem foldl_opt_step_bias_frozen (upds : List (String → (ℕ → ℚ) → (ℕ → ℚ)))
    (m : SplineParams) (h : m.learn_bias = false) :
    (upds.foldl (fun s u => module_opt_step u s) m).spline_bias
      = m.spline_bias := by
  induction upds generalizing m with
  | nil => rfl
  | cons u rest ih =>
      rw [List.foldl_cons, ih (module_opt_step u m)
        ((module_opt_step_learn_bias u m).trans h)]
      exact module_opt_step_bias_frozen u m h

/-- C9: with bias=False the spline bias is not a registered learnable
parameter and is unchanged by any sequence of optimizer updates, while the
coefficient vector and the spline weight remain registered; with bias=True
the spline bias is registered. -/
theorem C9_bias_flag_controls_learnability (m : SplineParams)
    (upds : List (String → (ℕ → ℚ) → (ℕ → ℚ))) (h : m.learn_bias = false) :
    "spline_bias" ∉ registered_parameters false
    ∧ "coefficients_vect" ∈ registered_parameters false
    ∧ "spline_weight" ∈ registered_parameters false
    ∧ "spline_bias" ∈ registered_parameters true
    ∧ (upds.foldl (fun s u => module_opt_step u s) m).spline_bias
        = m.spline_bias :=
  ⟨by decide, by decide, by decide, by decide,
    foldl_opt_step_bias_frozen upds m h⟩

/-- C9 witness: a concrete module with learn_bias = false keeps its bias
through a concrete optimizer update. -/
theorem C9_bias_flag_controls_learnability_witness :
    ([fun _ f => fun i => f i + 1].foldl (fun s u => module_opt_step u s)
      { coefficients_vect := fun _ => 0
        spline_weight := fun _ => 0
        spline_bias := fun _ => 7
        learn_bias := false : SplineParams }).spline_bias
      = ({ coefficients_vect := fun _ => 0
           spline_weight := fun _ => 0
           spline_bias := fun _ => 7
           learn_bias := false : SplineParams }).spline_bias :=
  (C9_bias_flag_controls_learnability _ _ rfl).2.2.2.2

/-- C10: parameter_names yields exactly the three names
coefficients_vect, spline_weight, spline_bias in that order, independent
of its arguments; in particular it still yields spline_bias even though
with bias=False spline_bias is not among the registered learnable
parameters. -/
theorem C10_parameter_names_fixed :
    (∀ (α : Type) (kwargs : α),
      parameter_names kwargs
        = ["coefficients_vect", "spline_weight", "spline_bias"])
    ∧ (∀ (α : Type) (kwargs : α), "spline_bias" ∈ parameter_names kwargs)
    ∧ "spline_bias" ∉ registered_parameters false :=
  ⟨fun _ _ => rfl, fun _ _ => by simp [parameter_names], by decide⟩

/-! ## DeepBSplineExplicitLinear.forward (source lines 96-116) -/

/-- Modelled from the spec: the base class forward pass applies the
channel's spline elementwise over a 4D (batch, channel, height, width)
input; `coef c` is channel c's coefficient vector. -/
def baseForward4D {N C H W : ℕ} (R step : ℚ) (size : ℕ) (coef : ℕ → ℕ → ℚ)
    (x : Fin N → Fin C → Fin H → Fin W → ℚ) :
    Fin N → Fin C → Fin H → Fin W → ℚ :=
  fun n c h w => splineForward R step size (coef c.val) (x n c h w)

/-- Modelled from the spec: reshape_forward views a 2D fully-connected
input (batch, channel) as 4D with singleton spatial dimensions. -/
def reshape_forward2D {N C : ℕ} (x : Fin N → Fin C → ℚ) :
    Fin N → Fin C → Fin 1 → Fin 1 → ℚ :=
  fun n c _ _ => x n c

/-- Modelled from the spec: reshape_back views the 4D result back in the
original 2D shape. -/
def reshape_back2D {N C : ℕ} (y : Fin N → Fin C → Fin 1 → Fin 1 → ℚ) :
    Fin N → Fin C → ℚ :=
  fun n c => y n c 0 0

/-- Modelled from the spec: base forward for a 2D fully-connected input. -/
def baseForward2D {N C : ℕ} (R step : ℚ) (size : ℕ) (coef : ℕ → ℕ → ℚ)
    (x : Fin N → Fin C → ℚ) : Fin N → Fin C → ℚ :=
  fun n c => splineForward R step size (coef c.val) (x n c)

/-- DeepBSplineExplicitLinear.forward on a 2D input: the base spline
output plus the linear term b0 + b1 * x computed in the reshaped 4D view
and reshaped back. -/
def explicitLinearForward2D {N C : ℕ} (R step : ℚ) (size : ℕ)
    (coef : ℕ → ℕ → ℚ) (b0 b1 : ℕ → ℚ) (x : Fin N → Fin C → ℚ) :
    Fin N → Fin C → ℚ :=
  let output := baseForward2D R step size coef x
  let xr := reshape_forward2D x
  let out_linear := fun n c (i : Fin 1) (j : Fin 1) =>
    b0 c.val + b1 c.val * xr n c i j
  fun n c => output n c + reshape_back2D out_linear n c

/-- DeepBSplineExplicitLinear.forward on a 4D convolutional input, where
the reshape is the identity: base spline output plus the per-channel
linear term broadcast over batch and spatial dimensions. -/
def explicitLinearForward4D {N C H W : ℕ} (R step : ℚ) (size : ℕ)
    (coef : ℕ → ℕ → ℚ) (b0 b1 : ℕ → ℚ)
    (x : Fin N → Fin C → Fin H → Fin W → ℚ) :
    Fin N → Fin C → Fin H → Fin W → ℚ :=
  let output := baseForward4D R step size coef x
  let out_linear := fun n c h w => b0 c.val + b1 c.val * x n c h w
  fun n c h w => output n c h w + out_linear n c h w

/-- C4: forward returns the base spline output plus, for each channel c,
the term spline_bias c + spline_weight c * x broadcast over every batch
and spatial element of that channel; the result indexes exactly like the
input (same shape). -/
theorem C4_forward_adds_linear_term :
    (∀ (N C : ℕ) (R step : ℚ) (size : ℕ) (coef : ℕ → ℕ → ℚ)
        (b0 b1 : ℕ → ℚ) (x : Fin N → Fin C → ℚ) (n : Fin N) (c : Fin C),
      explicitLinearForward2D R step size coef b0 b1 x n c
        = baseForward2D R step size coef x n c
            + (b0 c.val + b1 c.val * x n c))
    ∧ (∀ (N C H W : ℕ) (R step : ℚ) (size : ℕ) (coef : ℕ → ℕ → ℚ)
        (b0 b1 : ℕ → ℚ) (x : Fin N → Fin C → Fin H → Fin W → ℚ)
        (n : Fin N) (c : Fin C) (h : Fin H) (w : Fin W),
      explicitLinearForward4D R step size coef b0 b1 x n c h w
        = baseForward4D R step size coef x n c h w
            + (b0 c.val + b1 c.val * x n c h w)) :=
  ⟨fun _ _ _ _ _ _ _ _ _ _ _ => rfl, fun _ _ _ _ _ _ _ _ _ _ _ _ _ _ _ => rfl⟩

/-! ## Parameter partition for the two optimizers
    (Manager.set_optimization, source lines 100-134) -/

/-- A learnable tensor's group tag: main network parameters (weights,
biases, linear-term parameters) or deepspline coefficient vectors. -/
inductive ParamGroup
  | main
  | spline
deriving DecidableEq

/-- A learnable tensor, identified by name and tagged with its group. -/
structure NetParam where
  name : String
  group : ParamGroup
deriving DecidableEq

/-- Modelled from the spec: basemodel's parameters_no_deepspline yields
the network parameters that are not deepspline coefficients. -/
def parameters_no_deepspline (ps : List NetParam) : List NetParam :=
  ps.filter (fun p => p.group = ParamGroup.main)

/-- Modelled from the spec: basemodel's parameters_deepspline yields the
deepspline coefficient parameters. -/
def parameters_deepspline (ps : List NetParam) : List NetParam :=
  ps.filter (fun p => p.group = ParamGroup.spline)

/-- Manager.set_optimization with two configured optimizers: the main
optimizer receives parameters_no_deepspline and the aux optimizer
parameters_deepspline. -/
def set_optimization_groups (ps : List NetParam) :
    List NetParam × List NetParam :=
  (parameters_no_deepspline ps, parameters_deepspline ps)

/-- C3: every learnable parameter of the network is handed to exactly one
of the two optimizers — the two groups cover all parameters and share
none. -/
theorem C3_parameter_groups_partition (ps : List NetParam) (p : NetParam)
    (hp : p ∈ ps) :
    ((p ∈ (set_optimization_groups ps).1 ∧ p ∉ (set_optimization_groups ps).2)
      ∨ (p ∈ (set_optimization_groups ps).2
          ∧ p ∉ (set_optimization_groups ps).1))
    ∧ (∀ q : NetParam,
        q ∈ (set_optimization_groups ps).1 ∨ q ∈ (set_optimization_groups ps).2
          → q ∈ ps) := by
  constructor
  · unfold set_optimization_groups parameters_no_deepspline parameters_deepspline
    simp only [List.mem_filter, decide_eq_true_eq]
    cases hg : p.group
    · exact Or.inl ⟨⟨hp, rfl⟩, fun h => by simp at h⟩
    · exact Or.inr ⟨⟨hp, rfl⟩, fun h => by simp at h⟩
  · intro q hq
    unfold set_optimization_groups parameters_no_deepspline parameters_deepspline at hq
    rcases hq with h | h <;> exact (List.mem_filter.mp h).1

/-- C3 witness: a two-parameter network with one main and one spline
parameter. -/
theorem C3_parameter_groups_partition_witness :
    ((⟨"conv1", ParamGroup.main⟩ : NetParam)
        ∈ (set_optimization_groups
            [⟨"conv1", ParamGroup.main⟩, ⟨"coeffs", ParamGroup.spline⟩]).1
      ∧ (⟨"conv1", ParamGroup.main⟩ : NetParam)
        ∉ (set_optimization_groups
            [⟨"conv1", ParamGroup.main⟩, ⟨"coeffs", ParamGroup.spline⟩]).2)
    ∨ ((⟨"conv1", ParamGroup.main⟩ : NetParam)
        ∈ (set_optimization_groups
            [⟨"conv1", ParamGroup.main⟩, ⟨"coeffs", ParamGroup.spline⟩]).2
      ∧ (⟨"conv1", ParamGroup.main⟩ : NetParam)
        ∉ (set_optimization_groups
            [⟨"conv1", ParamGroup.main⟩, ⟨"coeffs", ParamGroup.spline⟩]).1) :=
  (C3_parameter_groups_partition
    [⟨"conv1", ParamGroup.main⟩, ⟨"coeffs", ParamGroup.spline⟩]
    ⟨"conv1", ParamGroup.main⟩ (by simp)).1

/-! ## Loss assembly per training batch
    (Manager.forward_backward_train_batch, source lines 228-257) -/

/-- The two regularization switches of the network. -/
structure RegConfig where
  weight_decay_regularization : Bool
  tv_bv_regularization : Bool

/-- Manager.forward_backward_train_batch loss assembly: losses starts as
[data_fidelity]; weight decay and the weighted TV/BV value are added to a
regularization accumulator when enabled; when TV/BV is enabled the
unweighted TV/BV value is appended to losses for logging; the total loss
(data fidelity + regularization) is inserted at the front. -/
def forward_backward_train_batch (cfg : RegConfig)
    (data_fidelity wd tv_bv tv_bv_unweighted : ℚ) : ℚ × List ℚ :=
  let losses : List ℚ := [data_fidelity]
  let regularization : ℚ := 0
  let regularization :=
    if cfg.weight_decay_regularization then regularization + wd
    else regularization
  let step2 :=
    if cfg.tv_bv_regularization then
      (regularization + tv_bv, losses ++ [tv_bv_unweighted])
    else (regularization, losses)
  let total_loss := data_fidelity + step2.1
  (total_loss, total_loss :: step2.2)

/-- C6: the total loss equals the data-fidelity loss plus the weighted
weight-decay penalty (when enabled) plus the weighted TV/BV penalty (when
enabled); when TV/BV regularization is enabled, the unweighted TV/BV
value is returned in the losses list for logging, separate from the
weighted value added to the total. -/
theorem C6_total_loss_assembly (cfg : RegConfig)
    (df wd tv unw : ℚ) :
    (forward_backward_train_batch cfg df wd tv unw).1
      = df + ((if cfg.weight_decay_regularization then wd else 0)
          + (if cfg.tv_bv_regularization then tv else 0))
    ∧ (cfg.tv_bv_regularization = true →
        (forward_backward_train_batch cfg df wd tv unw).2
          = [(forward_backward_train_batch cfg df wd tv unw).1, df, unw])
    ∧ (cfg.tv_bv_regularization = false →
        (forward_backward_train_batch cfg df wd tv unw).2
          = [(forward_backward_train_batch cfg df wd tv unw).1, df]) := by
  obtain ⟨wdr, tvr⟩ := cfg
  cases wdr <;> cases tvr <;>
    simp [forward_backward_train_batch]

/-- C6 witness: both regularizers enabled on concrete numbers. -/
theorem C6_total_loss_assembly_witness :
    (forward_backward_train_batch ⟨true, true⟩ 10 2 3 5).2
      = [(forward_backward_train_batch ⟨true, true⟩ 10 2 3 5).1, 10, 5] :=
  (C6_total_loss_assembly ⟨true, true⟩ 10 2 3 5).2.1 rfl

/-! ## Training loop with final sparsification epoch
    (Manager.train, source lines 169-224) -/

/-- Observable actions of the training loop: putting the network in
evaluation mode, sparsifying the activations, freezing the parameters,
and running one epoch (with the network's training flag at epoch entry). -/
inductive TrainEvent
  | setEval
  | sparsifyActivations
  | freezeParameters
  | runEpoch (e : ℕ) (training : Bool)
deriving DecidableEq

/-- Body of the epoch loop in Manager.train: in the last epoch, when
sparsification is requested, the network is set to eval mode, sparsified
and frozen before the epoch runs; every other epoch just runs in training
mode. -/
def epochEvents (total : ℕ) (sparsify : Bool) (e : ℕ) : List TrainEvent :=
  if e = total - 1 ∧ sparsify = true then
    [TrainEvent.setEval, TrainEvent.sparsifyActivations,
     TrainEvent.freezeParameters, TrainEvent.runEpoch e false]
  else [TrainEvent.runEpoch e true]

/-- Number of epochs actually run: one extra epoch is added when
knot_threshold > 0. -/
def totalEpochs (num_epochs : ℕ) (knot_threshold : ℚ) : ℕ :=
  num_epochs + (if 0 < knot_threshold then 1 else 0)

/-- Event trace of Manager.train: the epoch loop runs from start_epoch to
the (possibly extended) number of epochs. -/
def trainEvents (start_epoch num_epochs : ℕ) (knot_threshold : ℚ) :
    List TrainEvent :=
  ((List.range (totalEpochs num_epochs knot_threshold)).drop start_epoch).flatMap
    (epochEvents (totalEpochs num_epochs knot_threshold)
      (decide (0 < knot_threshold)))

theorem epochEvents_false (total e : ℕ) :
    epochEvents total false e = [TrainEvent.runEpoch e true] := by
  unfold epochEvents
  simp

theorem flatMap_epochEvents_of_ne (total : ℕ) (l : List ℕ)
    (h : ∀ e ∈ l, e ≠ total - 1) :
    l.flatMap (epochEvents total true)
      = l.map (fun e => TrainEvent.runEpoch e true) := by
  induction l with
  | nil => rfl
  | cons a t ih =>
      rw [List.flatMap_cons, List.map_cons,
        ih (fun e he => h e (List.mem_cons_of_mem a he))]
      unfold epochEvents
      rw [if_neg (by simp [h a (List.mem_cons_self a t)])]
      rfl

/-- With threshold ≤ 0 the trace has no sparsification event at all. -/
theorem sparsify_not_mem_of_nonpos (s n : ℕ) (kt : ℚ) (h : kt ≤ 0) :
    TrainEvent.sparsifyActivations ∉ trainEvents s n kt := by
  unfold trainEvents
  have hd : decide (0 < kt) = false := by
    simp only [decide_eq_false_iff_not, not_lt]
    exact h
  rw [hd]
  intro hmem
  rcases List.mem_flatMap.mp hmem with ⟨e, _, hin⟩
  rw [epochEvents_false] at hin
  simp at hin

/-- With a positive threshold and start_epoch ≤ num_epochs, the trace is
the training epochs followed by a single final block: set eval mode,
sparsify, freeze, run the one extra epoch in evaluation mode. -/
theorem trainEvents_eq_of_pos (s n : ℕ) (kt : ℚ) (hkt : 0 < kt) (hs : s ≤ n) :
    trainEvents s n kt
      = ((List.range n).drop s).map (fun e => TrainEvent.runEpoch e true)
        ++ [TrainEvent.setEval, TrainEvent.sparsifyActivations,
            TrainEvent.freezeParameters, TrainEvent.runEpoch n false] := by
  unfold trainEvents totalEpochs
  have hd : decide (0 < kt) = true := decide_eq_true hkt
  rw [hd, if_pos hkt, List.range_succ,
    List.drop_append_of_le_length (by simpa using hs), List.flatMap_append]
  congr 1
  · exact flatMap_epochEvents_of_ne (n + 1) _
      (fun e he => by
        have := List.mem_range.mp (List.mem_of_mem_drop he)
        omega)
  · simp [epochEvents]

/-- With a positive threshold but start_epoch beyond the last epoch, the
loop body never runs. -/
theorem trainEvents_eq_nil_of_late (s n : ℕ) (kt : ℚ) (hs : n + 1 ≤ s) :
    trainEvents s n kt = [] := by
  unfold trainEvents totalEpochs
  rw [List.drop_eq_nil_of_le (by simp; split <;> omega)]
  rfl

theorem sparsify_count_le_one (s n : ℕ) (kt : ℚ) :
    (trainEvents s n kt).count TrainEvent.sparsifyActivations ≤ 1 := by
  rcases le_or_lt kt 0 with h | h
  · rw [List.count_eq_zero.mpr (sparsify_not_mem_of_nonpos s n kt h)]
    omega
  · rcases le_or_lt s n with hs | hs
    · rw [trainEvents_eq_of_pos s n kt h hs, List.count_append]
      have hmap : (((List.range n).drop s).map
          (fun e => TrainEvent.runEpoch e true)).count
            TrainEvent.sparsifyActivations = 0 := by
        rw [List.count_eq_zero]
        intro hmem
        rcases List.mem_map.mp hmem with ⟨e, _, heq⟩
        exact TrainEvent.noConfusion heq
      rw [hmap]
      simp [List.count_cons]
    · rw [trainEvents_eq_nil_of_late s n kt (by omega)]
      simp

/-- A parameter tensor: its value and whether gradients (hence optimizer
updates) apply to it. -/
structure ParamTensor where
  value : ℚ
  requires_grad : Bool

/-- Modelled from the spec: freeze_parameters (basemodel.py is outside the
repository snapshot) permanently disables gradient computation for a
parameter. -/
def freeze_param (p : ParamTensor) : ParamTensor :=
  { p with requires_grad := false }

/-- Modelled from the spec: an optimizer step changes only parameters that
require gradients. -/
def optim_param_step (upd : ℚ → ℚ) (p : ParamTensor) : ParamTensor :=
  if p.requires_grad then { p with value := upd p.value } else p

theorem foldl_optim_frozen (upds : List (ℚ → ℚ)) (p : ParamTensor)
    (h : p.requires_grad = false) :
    upds.foldl (fun q u => optim_param_step u q) p = p := by
  induction upds with
  | nil => rfl
  | cons u t ih =>
      rw [List.foldl_cons,
        show optim_param_step u p = p by unfold optim_param_step; rw [h]; simp]
      exact ih

/-- C5: the sparsification pass runs only when knot_threshold is strictly
positive; it runs at most once, in the single extra final epoch, with the
network first set to evaluation mode and the parameters frozen right
after, the extra epoch running with the training flag off; and once a
parameter is frozen, no sequence of optimizer updates changes its value or
unfreezes it. -/
theorem C5_sparsification_terminal :
    (∀ (s n : ℕ) (kt : ℚ), kt ≤ 0 →
        TrainEvent.sparsifyActivations ∉ trainEvents s n kt)
    ∧ (∀ (s n : ℕ) (kt : ℚ),
        (trainEvents s n kt).count TrainEvent.sparsifyActivations ≤ 1)
    ∧ (∀ (s n : ℕ) (kt : ℚ), 0 < kt → s ≤ n →
        trainEvents s n kt
          = ((List.range n).drop s).map (fun e => TrainEvent.runEpoch e true)
            ++ [TrainEvent.setEval, TrainEvent.sparsifyActivations,
                TrainEvent.freezeParameters, TrainEvent.runEpoch n false])
    ∧ (∀ (upds : List (ℚ → ℚ)) (p : ParamTensor),
        (upds.foldl (fun q u => optim_param_step u q) (freeze_param p)).value
            = p.value
        ∧ (upds.foldl (fun q u => optim_param_step u q)
            (freeze_param p)).requires_grad = false) :=
  ⟨sparsify_not_mem_of_nonpos, sparsify_count_le_one, trainEvents_eq_of_pos,
    fun upds p => by rw [foldl_optim_frozen upds (freeze_param p) rfl]; exact ⟨rfl, rfl⟩⟩

/-- C5 witness: with threshold 0 and two epochs, no sparsification event
occurs. -/
theorem C5_sparsification_terminal_witness :
    TrainEvent.sparsifyActivations ∉ trainEvents 0 2 0 :=
  C5_sparsification_terminal.1 0 2 0 le_rfl
